import Mathlib

/-!
Shallow embedding of the rdsys backend resource engine
(`pkg/core/stencil.go`, `pkg/core/hashring.go`,
`pkg/core/backend_resources.go` and the kraken ingestion loop of
`pkg/usecases/resources`), together with theorems settling the
specification claims about it.

Go machine integers are modelled as `Nat`/`Int` (hash keys are `uint64`
values; none of the modelled operations overflow them), Go `time.Time`
and `time.Duration` as `Int`, fallible functions as `Option`/`Except`,
and Go maps as association lists with distinct keys.
-/

namespace Rdsys

/-- Models the `core.Resource` interface as the record of the capabilities
the core engine reads: type tag (`Type()`), 64-bit unique id (`Uid()`),
content fingerprint (`Oid()`), optional pinned distributor
(`Distributor()`), and expiry duration (`Expiry()`). -/
structure Resource where
  rtype : String
  uid : Nat
  oid : Nat
  distributor : String
  expiry : Int
deriving Repr, DecidableEq, Inhabited

/-- Models `core.Interval`: a closed integer interval `[Begin, End]`
tagged with a distributor name. -/
structure Interval where
  Begin : Int
  End : Int
  Name : String
deriving Repr, DecidableEq, Inhabited

/-- Models `core.Stencil`: a list of intervals overlayed over a hashring. -/
structure Stencil where
  intervals : List Interval
deriving Repr, DecidableEq, Inhabited

/-- Weight of key `k` in the proportions map (`proportions[k]`; a Go map
lookup of an absent key yields the zero value).  The proportions map is
modelled as an association list whose keys are distinct. -/
def lookupW (ps : List (String × Int)) (k : String) : Int :=
  (ps.lookup k).getD 0

/-- Models the interval-chain loop of `core.BuildStencil`: starting at
cursor `c`, for each name in order append an interval of width
`proportions[name]` and advance the cursor by that width. -/
def buildIntervals (ps : List (String × Int)) : Int → List String → List Interval
  | _, [] => []
  | c, k :: ks => ⟨c, c + lookupW ps k - 1, k⟩ :: buildIntervals ps (c + lookupW ps k) ks

/-- Models `core.BuildStencil`: sort the distributor names
lexicographically (`sort.Strings`, modelled by an insertion sort — any
correct sort of the duplicate-free key set of a Go map yields the same
list) and chain the intervals from cursor 0. -/
def BuildStencil (ps : List (String × Int)) : Stencil :=
  ⟨buildIntervals ps 0 (List.insertionSort (· ≤ ·) (ps.map Prod.fst))⟩

/-- Models `Interval.Contains`: `Begin <= n <= End`. -/
def Interval.Contains (i : Interval) (n : Int) : Bool :=
  decide (i.Begin ≤ n) && decide (n ≤ i.End)

/-- Models `Stencil.FindByValue`: the first interval containing `n`;
`none` models the "no interval that contains given value" error. -/
def Stencil.FindByValue (s : Stencil) (n : Int) : Option Interval :=
  s.intervals.find? (fun i => i.Contains n)

/-- Models `Stencil.GetUpperEnd`: the maximum interval end (starting the
running maximum at 0); `none` models the error on an empty stencil. -/
def Stencil.GetUpperEnd (s : Stencil) : Option Int :=
  if s.intervals.isEmpty then none
  else some (s.intervals.foldl (fun m i => if i.End > m then i.End else m) 0)

/-- Modelled from the spec: the bucket computation
`rand.Seed(int64(seed)); rand.Intn(n)` in `GetFilterFunc` uses Go's
seedable `math/rand` generator, which is Go standard-library code, not
part of this repository.  The spec requires "a seedable deterministic
generator whose output depends only on the seed".  It is modelled by a
concrete 64-bit mixing function; every theorem below depends only on the
two properties the model shares with the real generator: the result is a
pure function of `(seed, n)` and lies in `[0, n)` for `n > 0` (Go's
`Intn` panics for `n <= 0`, a case `GetFilterFunc` never reaches). -/
def randIntn (seed : Nat) (n : Int) : Int :=
  if n ≤ 0 then 0
  else (((seed * 6364136223846793005 + 1442695040888963407) % 2 ^ 64 : Nat) : Int) % n

/-- Models the filter function returned by `Stencil.GetFilterFunc`, applied
to one resource: a pinned resource goes by its pin; otherwise the
resource's `Uid` seeds the PRNG and the interval of the resulting bucket
decides (`false` on the "does not fall in any interval" path).  The outer
`none` models the error `GetFilterFunc` returns on an empty stencil. -/
def Stencil.filterFuncApplied (s : Stencil) (distName : String) (r : Resource) :
    Option Bool :=
  match s.GetUpperEnd with
  | none => none
  | some upperEnd =>
    some (if r.distributor ≠ "" then decide (r.distributor = distName)
          else match s.FindByValue (randIntn r.uid (upperEnd + 1)) with
               | some i => decide (i.Name = distName)
               | none => false)

/-- Models `Stencil.DoesDistOwnResource`, including the nil-stencil fast
path (`true`) and the `GetFilterFunc`-error path (`false`). -/
def DoesDistOwnResource (s : Option Stencil) (r : Resource) (distName : String) : Bool :=
  match s with
  | none => true
  | some s => (s.filterFuncApplied distName r).getD false

/-- Models `core.hashnode`: hash key, resource, last-update timestamp. -/
structure HNode where
  key : Nat
  res : Resource
  lastUpdate : Int
deriving Repr, DecidableEq, Inhabited

/-- Placeholder node used to model Go slice indexing via `List.getD`;
never read on in-range indices. -/
def dummyNode : HNode := ⟨0, default, 0⟩

/-- Event code `core.ResourceUnchanged`. -/
def ResourceUnchanged : Nat := 0

/-- Event code `core.ResourceIsNew`. -/
def ResourceIsNew : Nat := 1

/-- Event code `core.ResourceChanged`. -/
def ResourceChanged : Nat := 2

/-- Event code `core.ResourceIsGone`. -/
def ResourceIsGone : Nat := 3

/-- Models the binary-search loop of Go's `sort.Search(n, f)` (standard
library): `i, j := 0, n`; while `i < j`, probe `h := (i+j)/2` and narrow
to `[h+1, j]` or `[i, h]`.  The extra fuel argument only bounds the
number of iterations so that the function is structurally recursive; the
loop needs at most `j - i` iterations, so with the initial fuel `n` the
fuel never runs out. -/
def sortSearchAux (pred : Nat → Bool) : Nat → Nat → Nat → Nat
  | 0, i, _ => i
  | fuel + 1, i, j =>
    if i < j then
      if pred ((i + j) / 2) then sortSearchAux pred fuel i ((i + j) / 2)
      else sortSearchAux pred fuel ((i + j) / 2 + 1) j
    else i

/-- Models Go's `sort.Search(n, f)`. -/
def sortSearch (n : Nat) (pred : Nat → Bool) : Nat := sortSearchAux pred n 0 n

/-- Result of `Hashring.getIndex`: an exact hit with its index, a miss
with the index of the next element (after the wrap-around to 0), or the
empty-ring error (`(-1, err)` in Go). -/
inductive GetIndexResult where
  | found (i : Nat)
  | notFound (i : Nat)
  | empty
deriving Repr, DecidableEq

/-- Hash keys of the nodes of a ring, in ring order. -/
def ringKeys (ring : List HNode) : List Nat := ring.map HNode.key

/-- The index computed inside `Hashring.getIndex`: the `sort.Search`
result over the predicate `hashkey >= k`, wrapped to 0 when it is the
ring length (`if i >= h.Len() { i = 0 }`). -/
def searchIndex (ring : List HNode) (k : Nat) : Nat :=
  let i0 := sortSearch ring.length (fun j => decide (k ≤ (ring.getD j dummyNode).key))
  if ring.length ≤ i0 then 0 else i0

/-- Models `Hashring.getIndex`. -/
def getIndex (ring : List HNode) (k : Nat) : GetIndexResult :=
  if ring.length = 0 then .empty
  else if (ring.getD (searchIndex ring k) dummyNode).key = k then .found (searchIndex ring k)
  else .notFound (searchIndex ring k)

/-- Models `sort.Sort(h)` on a hashring, which sorts the nodes by hash key
(the ring's `Less`; modelled by an insertion sort).  On the rings the code
builds, keys are distinct, so any correct sort yields the same result. -/
def sortNodes (ring : List HNode) : List HNode :=
  List.insertionSort (fun a b => a.key ≤ b.key) ring

/-- Models `Hashring.Add` (the asynchronous health test spawned by
`maybeTestResource` never touches the ring and is not modelled).  Returns
the new ring, and `true` iff Go returns the "resource already present"
error (in which case only the node's timestamp is refreshed). -/
def Add (ring : List HNode) (r : Resource) (now : Int) : List HNode × Bool :=
  match getIndex ring r.uid with
  | .found i => (ring.set i { ring.getD i dummyNode with lastUpdate := now }, true)
  | _ => (sortNodes (ring ++ [⟨r.uid, r, now⟩]), false)

/-- Models `Hashring.AddOrUpdate`: refresh the timestamp if the `Uid` is
present, replace the stored resource only if the `Oid` changed, insert
otherwise; returns the new ring and the event code. -/
def AddOrUpdate (ring : List HNode) (r : Resource) (now : Int) : List HNode × Nat :=
  match getIndex ring r.uid with
  | .found i =>
    let old := ring.getD i dummyNode
    if old.res.oid ≠ r.oid then
      (ring.set i ⟨old.key, r, now⟩, ResourceChanged)
    else
      (ring.set i { old with lastUpdate := now }, ResourceUnchanged)
  | _ => (sortNodes (ring ++ [⟨r.uid, r, now⟩]), ResourceIsNew)

/-- Models `Hashring.remove` (and `Remove`): delete the node carrying
`r`'s `Uid`; `none` models the error return. -/
def removeNode (ring : List HNode) (r : Resource) : Option (List HNode) :=
  match getIndex ring r.uid with
  | .found i => some (ring.eraseIdx i)
  | _ => none

/-- Models `Hashring.GetMany`; `none` models both error paths (`num`
exceeding the ring size, and `getIndex` failing on an empty ring). -/
def GetMany (ring : List HNode) (k : Nat) (num : Nat) : Option (List Resource) :=
  if ring.length < num then none
  else
    match getIndex ring k with
    | .empty => none
    | .found i | .notFound i =>
      some ((List.range num).map fun j => (ring.getD ((i + j) % ring.length) dummyNode).res)

/-- State of the `Prune` loop.  The Go `range` clause captures the slice
header (backing array and length) once, while each `remove` shifts the
elements after the removed index one slot to the left *inside the same
backing array* and shrinks `h.hashnodes`; the stale last slot keeps its
old value.  `backing` is the array (its length never changes), `len` the
current ring length (`h.hashnodes = backing[0:len]`), and `pruned` the
resources collected so far. -/
structure PruneState where
  backing : List HNode
  len : Nat
  pruned : List Resource
deriving Repr, DecidableEq

/-- Models one iteration of the `range` loop body of `Hashring.Prune` at
snapshot index `idx`: test `now - lastUpdate > Expiry()` on the node read
from the backing array, and on expiry record it and run `remove` (whose
error, for a node no longer in the ring, is ignored). -/
def pruneStep (now : Int) (st : PruneState) (idx : Nat) : PruneState :=
  let node := st.backing.getD idx dummyNode
  if node.res.expiry < now - node.lastUpdate then
    let st' : PruneState := { st with pruned := st.pruned ++ [node.res] }
    match getIndex (st'.backing.take st'.len) node.res.uid with
    | .found i =>
      { st' with
        backing := (st'.backing.take st'.len).eraseIdx i ++ st'.backing.drop (st'.len - 1)
        len := st'.len - 1 }
    | _ => st'
  else st

/-- Models `Hashring.Prune`: run the loop over the snapshot indices and
return the final ring together with the pruned resources. -/
def Prune (ring : List HNode) (now : Int) : List HNode × List Resource :=
  let st := (List.range ring.length).foldl (pruneStep now) ⟨ring, ring.length, []⟩
  (st.backing.take st.len, st.pruned)

/-- Models `core.EventRecipient`: the subscriber's update channels
(channels are Go reference values compared by identity, modelled as
integer channel ids) plus the requested resource types recorded from its
`ResourceRequest`. -/
structure EventRecipient where
  chans : List Nat
  reqTypes : List String
deriving Repr, DecidableEq, Inhabited

/-- Models `core.SplitHashring`: a hashring with an optional stencil. -/
structure SplitHR where
  ring : List HNode
  stencil : Option Stencil
deriving Repr, DecidableEq, Inhabited

/-- Models `core.BackendResources`: the per-type collection and the
subscriber registry (both Go maps, modelled as association lists with
distinct keys). -/
structure BackendState where
  coll : List (String × SplitHR)
  eventRecipients : List (String × EventRecipient)
deriving Repr, DecidableEq, Inhabited

/-- Update the value stored under key `k` of an association list, leaving
every other entry unchanged (a Go map store on a present key). -/
def updateAssoc {α : Type} (m : List (String × α)) (k : String) (v : α) :
    List (String × α) :=
  m.map fun p => if p.1 = k then (k, v) else p

/-- Modelled from the spec: `ResourceRequest.HasResourceType`.  The
`core.ResourceRequest` type is not among the provided source files (only
its callers are); per the spec a subscriber receives a diff only if its
"request's requested-types set contains `Type(r)`". -/
def hasResourceType (reqTypes : List String) (rType : String) : Bool :=
  reqTypes.contains rType

/-- Models `core.ResourceDiff`: typed bags of new, changed and gone
resources, each a map from resource type to resources. -/
structure RDiff where
  new : List (String × List Resource)
  changed : List (String × List Resource)
  gone : List (String × List Resource)
deriving Repr, DecidableEq, Inhabited

/-- Models the singleton diff built by `propagateUpdate` from the event
code; `none` models the `default: return` branch of its `switch`. -/
def eventDiff (r : Resource) (event : Nat) : Option RDiff :=
  let rm := [(r.rtype, [r])]
  if event = ResourceIsNew then some ⟨rm, [], []⟩
  else if event = ResourceChanged then some ⟨[], rm, []⟩
  else if event = ResourceIsGone then some ⟨[], [], rm⟩
  else none

/-- Models `BackendResources.propagateUpdate`: build the singleton diff
and post it to every channel of every subscriber that owns the resource
(per the type's stencil) and requested its type.  The posts are returned
as `(channel id, diff)` pairs; Go iterates the subscriber map in
unspecified order, modelled here by the registry's list order. -/
def propagateUpdate (st : BackendState) (r : Resource) (event : Nat) :
    List (Nat × RDiff) :=
  match st.coll.lookup r.rtype with
  | none => []
  | some shr =>
    match eventDiff r event with
    | none => []
    | some diff =>
      st.eventRecipients.flatMap fun er =>
        if DoesDistOwnResource shr.stencil r er.1 && hasResourceType er.2.reqTypes r.rtype
        then er.2.chans.map fun c => (c, diff)
        else []

/-- Models `BackendResources.Add`: a resource whose type has no hashring
in the collection is dropped; otherwise delegate to the ring's
`AddOrUpdate` and propagate any non-`Unchanged` event.  Returns the new
backend state and the posted diffs. -/
def backendAdd (st : BackendState) (r : Resource) (now : Int) :
    BackendState × List (Nat × RDiff) :=
  match st.coll.lookup r.rtype with
  | none => (st, [])
  | some shr =>
    let res := AddOrUpdate shr.ring r now
    let st' : BackendState :=
      { st with coll := updateAssoc st.coll r.rtype { shr with ring := res.1 } }
    if res.2 = ResourceUnchanged then (st', [])
    else (st', propagateUpdate st' r res.2)

/-- Models the channel-removal loop of `UnregisterChan`: `newSlice` starts
empty; at the first occurrence of `recipient` the element is cut out
(`chanSlice[:i]` when last, `append(chanSlice[:i], chanSlice[i+1:]...)`
otherwise — both are the removal of index `i`) and the loop breaks; when
`recipient` does not occur, `newSlice` remains the empty slice. -/
def unregisterChans (chanSlice : List Nat) (recipient : Nat) : List Nat :=
  let i := chanSlice.findIdx (fun c => decide (c = recipient))
  if i < chanSlice.length then chanSlice.eraseIdx i else []

/-- Models `BackendResources.UnregisterChan`; `none` models the nil-map
dereference (a Go nil-pointer panic) when `distName` has no entry in
`EventRecipients`. -/
def UnregisterChan (st : BackendState) (distName : String) (recipient : Nat) :
    Option BackendState :=
  match st.eventRecipients.lookup distName with
  | none => none
  | some er =>
    let er' : EventRecipient := { er with chans := unregisterChans er.chans recipient }
    some { st with eventRecipients := updateAssoc st.eventRecipients distName er' }

/-- A mutating hashring operation, for stating ring invariants over
arbitrary operation sequences. -/
inductive HOp where
  | add (r : Resource) (now : Int)
  | addOrUpdate (r : Resource) (now : Int)
  | remove (r : Resource)
deriving Repr

/-- Apply one hashring operation (a failed `Remove` leaves the ring
unchanged, as the Go error return does). -/
def applyOp (ring : List HNode) : HOp → List HNode
  | .add r now => (Add ring r now).1
  | .addOrUpdate r now => (AddOrUpdate ring r now).1
  | .remove r => (removeNode ring r).getD ring

/-- Run a sequence of hashring operations from the empty ring. -/
def runOps (ops : List HOp) : List HNode := ops.foldl applyOp []

/-- Models the relay capability flags of a network-status record
(`resources.BridgeFlags`). -/
structure Flags where
  fast : Bool
  stable : Bool
  running : Bool
  valid : Bool
deriving Repr, DecidableEq, Inhabited

/-- Models `resources.Transport` as the kraken loop uses it: the fields
copied from its bridge plus the `Resource` projection the backend stores
(`Uid`/`Oid` are hashes of the transport's content in Go, carried here as
data). -/
structure Transport where
  ttype : String
  fingerprint : String
  addressInvalid : Bool
  flags : Flags
  distribution : String
  blockedIn : List String
  uid : Nat
  oid : Nat
  expiry : Int
deriving Repr, DecidableEq, Inhabited

/-- Models `resources.Bridge` as the kraken loop uses it. -/
structure Bridge where
  fingerprint : String
  addressInvalid : Bool
  flags : Flags
  distribution : String
  transports : List Transport
  blockedIn : List String
  uid : Nat
  oid : Nat
  expiry : Int
deriving Repr, DecidableEq, Inhabited

/-- Resource projection of a transport, as submitted to
`BackendResources.Add`. -/
def Transport.toResource (t : Transport) : Resource :=
  ⟨t.ttype, t.uid, t.oid, t.distribution, t.expiry⟩

/-- Resource projection of a vanilla bridge, as submitted to
`BackendResources.Add` when the bridge has no transports. -/
def Bridge.toResource (b : Bridge) : Resource :=
  ⟨"vanilla", b.uid, b.oid, b.distribution, b.expiry⟩

/-- Models one record of the parsed network-status document: fingerprint,
flag line, and the data from which `loadBridgesFromNetworkstatus` builds
the bridge (address resolution is external I/O; `addressInvalid` carries
the later `IsValid` outcome). -/
structure NSEntry where
  fingerprint : String
  flags : Flags
  addressInvalid : Bool
  uid : Nat
  oid : Nat
  expiry : Int
deriving Repr, DecidableEq, Inhabited

/-- The bridge built from one network-status record. -/
def mkBridge (e : NSEntry) : Bridge :=
  { fingerprint := e.fingerprint
    addressInvalid := e.addressInvalid
    flags := e.flags
    distribution := ""
    transports := []
    blockedIn := []
    uid := e.uid
    oid := e.oid
    expiry := e.expiry }

/-- Errors of `loadBridgesFromNetworkstatus`: the external consensus
parser failing, or `NotEnoughRunningError`. -/
inductive LoadErr where
  | parseFailure
  | notEnoughRunning
deriving Repr, DecidableEq

/-- Models `loadBridgesFromNetworkstatus`: bridges lacking the `Running`
flag are dropped (and counted); if fewer than half of the records carry
`Running`, fail with `NotEnoughRunningError`.  The input is the parsed
network-status document (`none` when `zoossh` fails to parse the file).
Go compares `float64(runningBridges)/float64(numBridges) < 0.5`; for any
feasible count (below `2^53`) that floating-point comparison decides
exactly the rational inequality `2*runningBridges < numBridges` modelled
here, including `numBridges = 0`, where Go's `NaN < 0.5` is false. -/
def loadBridgesFromNetworkstatus (doc : Option (List NSEntry)) :
    Except LoadErr (List Bridge) :=
  match doc with
  | none => .error .parseFailure
  | some entries =>
    let bridges := (entries.filter (fun e => e.flags.running)).map mkBridge
    if 2 * (entries.filter (fun e => e.flags.running)).length < entries.length then
      .error .notEnoughRunning
    else
      .ok bridges

/-- Models `getBridgeDistributionRequest` for one bridge, given its
`bridge-distribution-request` value: a request other than `"any"` is
taken only when it names a configured distributor (or the sentinel
`"none"`). -/
def applyDistributionRequest (distNames : List String) (req : Option String)
    (b : Bridge) : Bridge :=
  match req with
  | none => b
  | some req =>
    if req ≠ "any" ∧ req ∈ distNames then { b with distribution := req } else b

/-- Models the descriptors pass of `reloadBridgeDescriptors`:
`getBridgeDistributionRequest` looks every bridge up in the parsed
descriptors map and applies its distribution request.  A `none` document
models the parse error, which the caller logs and ignores. -/
def getBridgeDistributionRequest (doc : Option (List (String × String)))
    (distNames : List String) (bridges : List Bridge) : List Bridge :=
  match doc with
  | none => bridges
  | some descriptors =>
    bridges.map fun b => applyDistributionRequest distNames (descriptors.lookup b.fingerprint) b

/-- Models the extra-info pass of `reloadBridgeDescriptors` for one parsed
extra-info document: each descriptor overwrites the transports of the
bridge with its fingerprint; descriptors for unknown fingerprints are
dropped.  A `none` document models a load failure, which is skipped. -/
def applyExtrainfo (doc : Option (List (String × List Transport)))
    (bridges : List Bridge) : List Bridge :=
  match doc with
  | none => bridges
  | some descriptors =>
    descriptors.foldl
      (fun bs d => bs.map fun b =>
        if b.fingerprint = d.1 then { b with transports := d.2 } else b)
      bridges

/-- Models the per-bridge body of the final loop of
`reloadBridgeDescriptors`: annotate and submit each transport with a
valid address, and submit the bridge itself as a vanilla resource when it
has no transports (skipping invalid addresses). -/
def addBridge (blocklist : List (String × List String)) (now : Int)
    (acc : BackendState × List (Nat × RDiff)) (b : Bridge) :
    BackendState × List (Nat × RDiff) :=
  let blocked := (blocklist.lookup b.fingerprint).getD []
  let acc := b.transports.foldl
    (fun acc t =>
      if t.addressInvalid then acc
      else
        let t' : Transport :=
          { t with flags := b.flags, distribution := b.distribution, blockedIn := blocked }
        let res := backendAdd acc.1 t'.toResource now
        (res.1, acc.2 ++ res.2))
    acc
  if b.transports.isEmpty then
    if b.addressInvalid then acc
    else
      let b' : Bridge := { b with blockedIn := blocked }
      let res := backendAdd acc.1 b'.toResource now
      (res.1, acc.2 ++ res.2)
  else acc

/-- The parsed inputs of one kraken ingestion cycle. -/
structure KrakenInputs where
  nsDoc : Option (List NSEntry)
  descriptorsDoc : Option (List (String × String))
  extrainfoDoc : Option (List (String × List Transport))
  extrainfoNewDoc : Option (List (String × List Transport))
  blocklist : List (String × List String)
  distProportionNames : List String
deriving Repr, Inhabited

/-- Models the tail of `reloadBridgeDescriptors` after the network-status
load: clear the ignoring metric, apply the distribution requests (the
candidate names are `"none"` plus the configured proportions keys), merge
both extra-info documents, and submit every assembled bridge. -/
def restOfCycle (inp : KrakenInputs) (bridges : List Bridge) (st : BackendState)
    (now : Int) : BackendState × Nat × List (Nat × RDiff) :=
  let distNames := "none" :: inp.distProportionNames
  let bridges := getBridgeDistributionRequest inp.descriptorsDoc distNames bridges
  let bridges := applyExtrainfo inp.extrainfoDoc bridges
  let bridges := applyExtrainfo inp.extrainfoNewDoc bridges
  let res := bridges.foldl (addBridge inp.blocklist now) (st, [])
  (res.1, 0, res.2)

/-- Models `reloadBridgeDescriptors`.  Returns the backend state, the
value the cycle writes to the `IgnoringBridgeDescriptors` metric, and the
diffs posted to subscribers.  On `NotEnoughRunningError` the cycle is
aborted: the metric is set to 1 and nothing else happens; any other load
error is logged and the cycle continues with no bridges. -/
def reloadBridgeDescriptors (inp : KrakenInputs) (st : BackendState) (now : Int) :
    BackendState × Nat × List (Nat × RDiff) :=
  match loadBridgesFromNetworkstatus inp.nsDoc with
  | .error e =>
    if e = LoadErr.notEnoughRunning then (st, 1, [])
    else restOfCycle inp [] st now
  | .ok bridges => restOfCycle inp bridges st now

/-- Stated from claim C7's words: the circular start position of key `k`
in a ring — the index of the first node whose key is at least `k`,
wrapping to index 0 when `k` is greater than every key.  Compared below
against what `getIndex` computes. -/
def circularStartSpec (ring : List HNode) (k : Nat) : Nat :=
  let i := (ringKeys ring).findIdx (fun x => decide (k ≤ x))
  if i < ring.length then i else 0

/-- A ring is sorted when its keys are strictly ascending. -/
def SortedRing (ring : List HNode) : Prop :=
  (ringKeys ring).Pairwise (· < ·)

theorem sortSearchAux_bounds (pred : Nat → Bool) (fuel : Nat) :
    ∀ i j, i ≤ j →
      i ≤ sortSearchAux pred fuel i j ∧ sortSearchAux pred fuel i j ≤ j := by
  induction fuel with
  | zero =>
    intro i j hij
    exact ⟨le_refl i, hij⟩
  | succ fuel ih =>
    intro i j hij
    rw [sortSearchAux]
    split
    · rename_i hlt
      split
      · have := ih i ((i + j) / 2) (by omega)
        omega
      · have := ih ((i + j) / 2 + 1) j (by omega)
        omega
    · omega

theorem sortSearchAux_spec (pred : Nat → Bool) (n : Nat)
    (hmono : ∀ x y, x ≤ y → y < n → pred x = true → pred y = true) (fuel : Nat) :
    ∀ i j, i ≤ j → j ≤ n → j - i ≤ fuel →
      (∀ x, x < i → pred x = false) →
      (∀ x, j ≤ x → x < n → pred x = true) →
      (∀ x, x < sortSearchAux pred fuel i j → pred x = false) ∧
      (∀ x, sortSearchAux pred fuel i j ≤ x → x < n → pred x = true) := by
  induction fuel with
  | zero =>
    intro i j hij hjn hfuel hlow hhigh
    have hieq : i = j := by omega
    subst hieq
    exact ⟨hlow, fun x hx hxn => hhigh x hx hxn⟩
  | succ fuel ih =>
    intro i j hij hjn hfuel hlow hhigh
    rw [sortSearchAux]
    split
    · rename_i hlt
      split
      · rename_i hp
        exact ih i ((i + j) / 2) (by omega) (by omega) (by omega) hlow
          (fun x hx hxn => hmono ((i + j) / 2) x hx (by omega) hp)
      · rename_i hp
        refine ih ((i + j) / 2 + 1) j (by omega) hjn (by omega) ?_ hhigh
        intro x hx
        by_cases hxi : x < i
        · exact hlow x hxi
        · cases hpx : pred x with
          | false => rfl
          | true =>
            have := hmono x ((i + j) / 2) (by omega) (by omega) hpx
            simp [this] at hp
    · exact ⟨hlow, fun x hx hxn => hhigh x (by omega) hxn⟩

theorem sortSearch_bounds (n : Nat) (pred : Nat → Bool) : sortSearch n pred ≤ n :=
  (sortSearchAux_bounds pred n 0 n (Nat.zero_le n)).2

theorem sortSearch_spec (n : Nat) (pred : Nat → Bool)
    (hmono : ∀ x y, x ≤ y → y < n → pred x = true → pred y = true) :
    (∀ x, x < sortSearch n pred → pred x = false) ∧
    (∀ x, sortSearch n pred ≤ x → x < n → pred x = true) :=
  sortSearchAux_spec pred n hmono n 0 n (Nat.zero_le n) (le_refl n) (by omega)
    (fun x hx => absurd hx (Nat.not_lt_zero x))
    (fun x hx hxn => absurd hxn (by omega))

theorem length_ringKeys (ring : List HNode) : (ringKeys ring).length = ring.length :=
  List.length_map ring HNode.key

theorem getD_key_eq (ring : List HNode) (x : Nat) (hx : x < (ringKeys ring).length) :
    (ring.getD x dummyNode).key = (ringKeys ring)[x] := by
  rw [List.getD_eq_getElem ring dummyNode (by rw [length_ringKeys] at hx; exact hx)]
  simp [ringKeys]

theorem searchPred_mono (ring : List HNode) (k : Nat) (hsort : SortedRing ring) :
    ∀ x y, x ≤ y → y < ring.length →
      decide (k ≤ (ring.getD x dummyNode).key) = true →
      decide (k ≤ (ring.getD y dummyNode).key) = true := by
  intro x y hxy hy hx
  simp only [decide_eq_true_eq] at hx ⊢
  rcases Nat.eq_or_lt_of_le hxy with h | h
  · subst h; exact hx
  · have hkey := (List.pairwise_iff_getElem.mp hsort) x y
      (by rw [length_ringKeys]; omega) (by rw [length_ringKeys]; exact hy) h
    rw [getD_key_eq ring x (by rw [length_ringKeys]; omega)] at hx
    rw [getD_key_eq ring y (by rw [length_ringKeys]; omega)]
    omega

theorem sortSearch_eq_findIdx (ring : List HNode) (k : Nat) (hsort : SortedRing ring) :
    sortSearch ring.length (fun j => decide (k ≤ (ring.getD j dummyNode).key)) =
      (ringKeys ring).findIdx (fun x => decide (k ≤ x)) := by
  obtain ⟨hbelow, habove⟩ := sortSearch_spec ring.length
    (fun j => decide (k ≤ (ring.getD j dummyNode).key)) (searchPred_mono ring k hsort)
  have hs_le := sortSearch_bounds ring.length
    (fun j => decide (k ≤ (ring.getD j dummyNode).key))
  have hf_le : List.findIdx (fun x => decide (k ≤ x)) (ringKeys ring) ≤
      (ringKeys ring).length := List.findIdx_le_length _
  rw [length_ringKeys] at hf_le
  set s := sortSearch ring.length (fun j => decide (k ≤ (ring.getD j dummyNode).key)) with hs
  set f := (ringKeys ring).findIdx (fun x => decide (k ≤ x)) with hf
  rcases lt_trichotomy s f with h | h | h
  · exfalso
    have h1 := habove s (le_refl s) (by omega)
    have h2 := List.not_of_lt_findIdx h
    rw [getD_key_eq ring s (by rw [length_ringKeys]; omega)] at h1
    rw [h1] at h2
    simp at h2
  · exact h
  · exfalso
    have h1 := hbelow f h
    have h2 := @List.findIdx_getElem _ (fun x => decide (k ≤ x)) (ringKeys ring)
      (by rw [length_ringKeys]; omega)
    rw [getD_key_eq ring f (by rw [length_ringKeys]; omega)] at h1
    simp only [← hf] at h2
    rw [h1] at h2
    simp at h2

theorem searchIndex_eq_startSpec (ring : List HNode) (k : Nat) (hsort : SortedRing ring) :
    searchIndex ring k = circularStartSpec ring k := by
  unfold searchIndex circularStartSpec
  rw [sortSearch_eq_findIdx ring k hsort]
  show (if ring.length ≤ List.findIdx (fun x => decide (k ≤ x)) (ringKeys ring) then 0
        else List.findIdx (fun x => decide (k ≤ x)) (ringKeys ring)) =
       (if List.findIdx (fun x => decide (k ≤ x)) (ringKeys ring) < ring.length
        then List.findIdx (fun x => decide (k ≤ x)) (ringKeys ring) else 0)
  split <;> split <;> omega

theorem searchIndex_lt (ring : List HNode) (k : Nat) (hne : ring.length ≠ 0) :
    searchIndex ring k < ring.length := by
  unfold searchIndex
  have := sortSearch_bounds ring.length (fun j => decide (k ≤ (ring.getD j dummyNode).key))
  show (if ring.length ≤
          sortSearch ring.length (fun j => decide (k ≤ (ring.getD j dummyNode).key)) then 0
        else sortSearch ring.length (fun j => decide (k ≤ (ring.getD j dummyNode).key))) <
       ring.length
  split <;> omega

theorem getIndex_found_key (ring : List HNode) (k i : Nat)
    (hfound : getIndex ring k = .found i) :
    i < ring.length ∧ (ring.getD i dummyNode).key = k := by
  unfold getIndex at hfound
  by_cases hne : ring.length = 0
  · rw [if_pos hne] at hfound
    exact absurd hfound (by simp)
  · rw [if_neg hne] at hfound
    split at hfound
    · rename_i hkey
      cases hfound
      exact ⟨searchIndex_lt ring k hne, hkey⟩
    · exact absurd hfound (by simp)

theorem mem_getIndex_found (ring : List HNode) (k : Nat) (hsort : SortedRing ring)
    (hmem : k ∈ ringKeys ring) : getIndex ring k = .found (searchIndex ring k) := by
  obtain ⟨t, ht, hkt⟩ := List.mem_iff_getElem.mp hmem
  rw [length_ringKeys] at ht
  have hne : ring.length ≠ 0 := by omega
  obtain ⟨hbelow, habove⟩ := sortSearch_spec ring.length
    (fun j => decide (k ≤ (ring.getD j dummyNode).key)) (searchPred_mono ring k hsort)
  set s := sortSearch ring.length (fun j => decide (k ≤ (ring.getD j dummyNode).key)) with hs
  have hs_le := sortSearch_bounds ring.length
    (fun j => decide (k ≤ (ring.getD j dummyNode).key))
  have hpt : decide (k ≤ (ring.getD t dummyNode).key) = true := by
    rw [getD_key_eq ring t (by rw [length_ringKeys]; omega), hkt]
    simp
  have hts : s ≤ t := by
    by_contra hc
    rw [hbelow t (by omega)] at hpt
    simp at hpt
  have hsn : s < ring.length := by omega
  have hsearch : searchIndex ring k = s := by
    unfold searchIndex
    rw [← hs, if_neg (by omega : ¬ ring.length ≤ s)]
  have hps := habove s (le_refl s) hsn
  rw [getD_key_eq ring s (by rw [length_ringKeys]; omega)] at hps
  simp only [decide_eq_true_eq] at hps
  have hs2 : s < (ringKeys ring).length := by
    rw [length_ringKeys]
    omega
  have hkey_le : (ringKeys ring)[s] ≤ k := by
    rcases Nat.eq_or_lt_of_le hts with h | h
    · subst h
      omega
    · have := (List.pairwise_iff_getElem.mp hsort) s t
        (by rw [length_ringKeys]; omega) (by rw [length_ringKeys]; omega) h
      omega
  have hkey : (ring.getD (searchIndex ring k) dummyNode).key = k := by
    rw [hsearch, getD_key_eq ring s (by rw [length_ringKeys]; omega)]
    omega
  unfold getIndex
  rw [if_neg hne, if_pos hkey, hsearch]

theorem getIndex_notFound_not_mem (ring : List HNode) (k : Nat)
    (hsort : SortedRing ring)
    (hnf : ∀ i, getIndex ring k ≠ .found i) : k ∉ ringKeys ring := by
  intro hmem
  exact hnf (searchIndex ring k) (mem_getIndex_found ring k hsort hmem)

theorem ringKeys_set (ring : List HNode) (i : Nat) (node' : HNode)
    (hkey : node'.key = (ring.getD i dummyNode).key) :
    ringKeys (ring.set i node') = ringKeys ring := by
  apply List.ext_getElem (by simp [ringKeys])
  intro j h1 h2
  simp only [ringKeys, List.getElem_map] at h2 ⊢
  rw [List.getElem_set]
  split
  · rename_i hij
    subst hij
    rw [hkey, List.getD_eq_getElem ring dummyNode (by simpa [ringKeys] using h2)]
  · rfl

theorem ringKeys_append_single (ring : List HNode) (n : HNode) :
    ringKeys (ring ++ [n]) = ringKeys ring ++ [n.key] := by
  simp [ringKeys]

theorem sortNodes_pairwise_le (l : List HNode) :
    ((ringKeys (sortNodes l)).Pairwise (· ≤ ·)) := by
  haveI htot : IsTotal HNode (fun a b => a.key ≤ b.key) := ⟨fun a b => Nat.le_total a.key b.key⟩
  haveI htr : IsTrans HNode (fun a b => a.key ≤ b.key) :=
    ⟨fun a b c hab hbc => Nat.le_trans hab hbc⟩
  have hpair := List.sorted_insertionSort (fun a b : HNode => a.key ≤ b.key) l
  rw [ringKeys, List.pairwise_map]
  exact hpair

theorem sortNodes_perm (l : List HNode) : (sortNodes l).Perm l :=
  List.perm_insertionSort _ l

theorem sortedRing_of_nodup_insert (ring : List HNode) (r : Resource) (now : Int)
    (hsort : SortedRing ring) (hnotmem : r.uid ∉ ringKeys ring) :
    SortedRing (sortNodes (ring ++ [⟨r.uid, r, now⟩])) := by
  have hnodup : (ringKeys (ring ++ [⟨r.uid, r, now⟩])).Nodup := by
    rw [ringKeys_append_single]
    rw [List.nodup_append]
    refine ⟨hsort.imp (fun h => Nat.ne_of_lt h), List.nodup_singleton _, ?_⟩
    intro a ha hb
    simp only [List.mem_singleton] at hb
    subst hb
    exact hnotmem ha
  have hperm : (ringKeys (sortNodes (ring ++ [⟨r.uid, r, now⟩]))).Perm
      (ringKeys (ring ++ [⟨r.uid, r, now⟩])) :=
    (sortNodes_perm _).map HNode.key
  have hnodup' := hperm.symm.nodup hnodup
  have hle := sortNodes_pairwise_le (ring ++ [⟨r.uid, r, now⟩])
  exact (hle.and hnodup').imp (fun h => Nat.lt_of_le_of_ne h.1 h.2)

theorem sortedRing_set (ring : List HNode) (i : Nat) (node' : HNode)
    (hkey : node'.key = (ring.getD i dummyNode).key) (hsort : SortedRing ring) :
    SortedRing (ring.set i node') := by
  unfold SortedRing
  rw [ringKeys_set ring i node' hkey]
  exact hsort

theorem Add_found (ring : List HNode) (r : Resource) (now : Int) (i : Nat)
    (hg : getIndex ring r.uid = .found i) :
    Add ring r now = (ring.set i { ring.getD i dummyNode with lastUpdate := now }, true) := by
  unfold Add
  rw [hg]

theorem Add_notFound (ring : List HNode) (r : Resource) (now : Int) (i : Nat)
    (hg : getIndex ring r.uid = .notFound i) :
    Add ring r now = (sortNodes (ring ++ [⟨r.uid, r, now⟩]), false) := by
  unfold Add
  rw [hg]

theorem Add_empty (ring : List HNode) (r : Resource) (now : Int)
    (hg : getIndex ring r.uid = .empty) :
    Add ring r now = (sortNodes (ring ++ [⟨r.uid, r, now⟩]), false) := by
  unfold Add
  rw [hg]

theorem AddOrUpdate_found (ring : List HNode) (r : Resource) (now : Int) (i : Nat)
    (hg : getIndex ring r.uid = .found i) :
    AddOrUpdate ring r now =
      if (ring.getD i dummyNode).res.oid ≠ r.oid
      then (ring.set i ⟨(ring.getD i dummyNode).key, r, now⟩, ResourceChanged)
      else (ring.set i { ring.getD i dummyNode with lastUpdate := now },
            ResourceUnchanged) := by
  unfold AddOrUpdate
  rw [hg]

theorem AddOrUpdate_notFound (ring : List HNode) (r : Resource) (now : Int) (i : Nat)
    (hg : getIndex ring r.uid = .notFound i) :
    AddOrUpdate ring r now = (sortNodes (ring ++ [⟨r.uid, r, now⟩]), ResourceIsNew) := by
  unfold AddOrUpdate
  rw [hg]

theorem AddOrUpdate_empty (ring : List HNode) (r : Resource) (now : Int)
    (hg : getIndex ring r.uid = .empty) :
    AddOrUpdate ring r now = (sortNodes (ring ++ [⟨r.uid, r, now⟩]), ResourceIsNew) := by
  unfold AddOrUpdate
  rw [hg]

theorem sortedRing_applyOp (ring : List HNode) (op : HOp) (hsort : SortedRing ring) :
    SortedRing (applyOp ring op) := by
  cases op with
  | add r now =>
    show SortedRing (Add ring r now).1
    cases hg : getIndex ring r.uid with
    | found i =>
      rw [Add_found ring r now i hg]
      exact sortedRing_set ring i _ rfl hsort
    | notFound i =>
      rw [Add_notFound ring r now i hg]
      exact sortedRing_of_nodup_insert ring r now hsort
        (getIndex_notFound_not_mem ring r.uid hsort (by simp [hg]))
    | empty =>
      rw [Add_empty ring r now hg]
      exact sortedRing_of_nodup_insert ring r now hsort
        (getIndex_notFound_not_mem ring r.uid hsort (by simp [hg]))
  | addOrUpdate r now =>
    show SortedRing (AddOrUpdate ring r now).1
    cases hg : getIndex ring r.uid with
    | found i =>
      rw [AddOrUpdate_found ring r now i hg]
      split
      · exact sortedRing_set ring i _ rfl hsort
      · exact sortedRing_set ring i _ rfl hsort
    | notFound i =>
      rw [AddOrUpdate_notFound ring r now i hg]
      exact sortedRing_of_nodup_insert ring r now hsort
        (getIndex_notFound_not_mem ring r.uid hsort (by simp [hg]))
    | empty =>
      rw [AddOrUpdate_empty ring r now hg]
      exact sortedRing_of_nodup_insert ring r now hsort
        (getIndex_notFound_not_mem ring r.uid hsort (by simp [hg]))
  | remove r =>
    show SortedRing ((removeNode ring r).getD ring)
    unfold removeNode
    cases hg : getIndex ring r.uid with
    | found i =>
      exact List.Pairwise.sublist ((List.eraseIdx_sublist ring i).map HNode.key) hsort
    | notFound i => exact hsort
    | empty => exact hsort

theorem sortedRing_foldl (ops : List HOp) (ring : List HNode) (hsort : SortedRing ring) :
    SortedRing (ops.foldl applyOp ring) := by
  induction ops generalizing ring with
  | nil => exact hsort
  | cons op ops ih => exact ih _ (sortedRing_applyOp ring op hsort)

/-- Total interval width of a list of distributor names. -/
def wsum (ps : List (String × Int)) (ks : List String) : Int :=
  (ks.map (lookupW ps)).sum

/-- The bucket a resource's `Uid` is hashed to by the filter function
(`rand.Seed(int64(r.Uid())); rand.Intn(upperEnd+1)`); 0 when the stencil
is empty (a case the filter function turns into an error before hashing). -/
def stencilBucket (s : Stencil) (r : Resource) : Int :=
  match s.GetUpperEnd with
  | none => 0
  | some u => randIntn r.uid (u + 1)

theorem lookup_mem {β : Type} (ps : List (String × β)) (k : String) (w : β)
    (h : ps.lookup k = some w) : (k, w) ∈ ps := by
  induction ps with
  | nil => simp [List.lookup] at h
  | cons p ps ih =>
    rcases p with ⟨a, b⟩
    rw [List.lookup] at h
    by_cases hk : k = a
    · subst hk
      simp only [beq_self_eq_true] at h
      cases h
      exact List.mem_cons_self _ _
    · have hbeq : (k == a) = false := beq_eq_false_iff_ne.mpr hk
      simp only [hbeq] at h
      exact List.mem_cons_of_mem _ (ih h)

theorem lookup_isSome_of_mem {β : Type} (ps : List (String × β)) (k : String)
    (h : k ∈ ps.map Prod.fst) : ∃ w, ps.lookup k = some w := by
  induction ps with
  | nil => simp at h
  | cons p ps ih =>
    rcases p with ⟨a, b⟩
    simp only [List.map_cons, List.mem_cons] at h
    rw [List.lookup]
    by_cases hk : k = a
    · subst hk
      simp
    · have hbeq : (k == a) = false := beq_eq_false_iff_ne.mpr hk
      simp only [hbeq]
      apply ih
      rcases h with h | h
      · exact absurd h hk
      · exact h

theorem lookupW_pos (ps : List (String × Int)) (k : String)
    (hpos : ∀ p ∈ ps, 0 < p.2) (hk : k ∈ ps.map Prod.fst) : 0 < lookupW ps k := by
  obtain ⟨w, hw⟩ := lookup_isSome_of_mem ps k hk
  have := hpos (k, w) (lookup_mem ps k w hw)
  unfold lookupW
  rw [hw]
  exact this

theorem wsum_cons (ps : List (String × Int)) (k : String) (ks : List String) :
    wsum ps (k :: ks) = lookupW ps k + wsum ps ks := by
  simp [wsum]

theorem wsum_nonneg (ps : List (String × Int)) (ks : List String)
    (hpos : ∀ x ∈ ks, 0 < lookupW ps x) : 0 ≤ wsum ps ks := by
  induction ks with
  | nil => simp [wsum]
  | cons k ks ih =>
    rw [wsum_cons]
    have h1 := hpos k (List.mem_cons_self _ _)
    have h2 := ih (fun x hx => hpos x (List.mem_cons_of_mem _ hx))
    omega

theorem wsum_pos (ps : List (String × Int)) (ks : List String)
    (hpos : ∀ x ∈ ks, 0 < lookupW ps x) (hne : ks ≠ []) : 0 < wsum ps ks := by
  cases ks with
  | nil => exact absurd rfl hne
  | cons k ks =>
    rw [wsum_cons]
    have h1 := hpos k (List.mem_cons_self _ _)
    have h2 := wsum_nonneg ps ks (fun x hx => hpos x (List.mem_cons_of_mem _ hx))
    omega

theorem buildIntervals_names (ps : List (String × Int)) (ks : List String) :
    ∀ c, (buildIntervals ps c ks).map Interval.Name = ks := by
  induction ks with
  | nil => intro c; rfl
  | cons k ks ih =>
    intro c
    simp only [buildIntervals, List.map_cons, ih]

theorem buildIntervals_bounds (ps : List (String × Int)) (ks : List String) :
    ∀ c, (∀ x ∈ ks, 0 < lookupW ps x) → ∀ i ∈ buildIntervals ps c ks,
      c ≤ i.Begin ∧ i.Begin ≤ i.End ∧ i.End ≤ c + wsum ps ks - 1 := by
  induction ks with
  | nil =>
    intro c _ i hi
    simp [buildIntervals] at hi
  | cons k ks ih =>
    intro c hpos i hi
    have hw := hpos k (List.mem_cons_self _ _)
    have hrest : ∀ x ∈ ks, 0 < lookupW ps x := fun x hx => hpos x (List.mem_cons_of_mem _ hx)
    have hwnn := wsum_nonneg ps ks hrest
    rw [buildIntervals] at hi
    rcases List.mem_cons.mp hi with h | h
    · subst h
      rw [wsum_cons]
      constructor
      · exact le_refl c
      constructor
      · show c ≤ c + lookupW ps k - 1
        omega
      · show c + lookupW ps k - 1 ≤ c + (lookupW ps k + wsum ps ks) - 1
        omega
    · have := ih (c + lookupW ps k) hrest i h
      rw [wsum_cons]
      constructor
      · omega
      constructor
      · exact this.2.1
      · omega

theorem buildIntervals_cover (ps : List (String × Int)) (ks : List String) :
    ∀ c n, (∀ x ∈ ks, 0 < lookupW ps x) → c ≤ n → n ≤ c + wsum ps ks - 1 →
      ∃ i, i ∈ buildIntervals ps c ks ∧ i.Contains n = true := by
  induction ks with
  | nil =>
    intro c n _ h1 h2
    simp [wsum] at h2
    omega
  | cons k ks ih =>
    intro c n hpos h1 h2
    have hw := hpos k (List.mem_cons_self _ _)
    have hrest : ∀ x ∈ ks, 0 < lookupW ps x := fun x hx => hpos x (List.mem_cons_of_mem _ hx)
    rw [wsum_cons] at h2
    by_cases hin : n ≤ c + lookupW ps k - 1
    · refine ⟨⟨c, c + lookupW ps k - 1, k⟩, ?_, ?_⟩
      · rw [buildIntervals]
        exact List.mem_cons_self _ _
      · simp [Interval.Contains]
        omega
    · obtain ⟨i, hi, hc⟩ := ih (c + lookupW ps k) n hrest (by omega) (by omega)
      refine ⟨i, ?_, hc⟩
      rw [buildIntervals]
      exact List.mem_cons_of_mem _ hi

theorem buildIntervals_disjoint (ps : List (String × Int)) (ks : List String) :
    ∀ c n i j, (∀ x ∈ ks, 0 < lookupW ps x) →
      i ∈ buildIntervals ps c ks → j ∈ buildIntervals ps c ks →
      i.Contains n = true → j.Contains n = true → i = j := by
  induction ks with
  | nil =>
    intro c n i j _ hi _ _ _
    simp [buildIntervals] at hi
  | cons k ks ih =>
    intro c n i j hpos hi hj hci hcj
    have hrest : ∀ x ∈ ks, 0 < lookupW ps x := fun x hx => hpos x (List.mem_cons_of_mem _ hx)
    rw [buildIntervals] at hi hj
    simp only [Interval.Contains, Bool.and_eq_true, decide_eq_true_eq] at hci hcj
    rcases List.mem_cons.mp hi with h1 | h1 <;> rcases List.mem_cons.mp hj with h2 | h2
    · rw [h1, h2]
    · exfalso
      have hb := buildIntervals_bounds ps ks (c + lookupW ps k) hrest j h2
      rw [h1] at hci
      simp at hci
      omega
    · exfalso
      have hb := buildIntervals_bounds ps ks (c + lookupW ps k) hrest i h1
      rw [h2] at hcj
      simp at hcj
      omega
    · exact ih (c + lookupW ps k) n i j hrest h1 h2
        (by simp [Interval.Contains]; omega) (by simp [Interval.Contains]; omega)

theorem if_max (m x : Int) : (if x > m then x else m) = max m x := by
  rcases le_or_lt x m with h | h
  · rw [if_neg (not_lt.mpr h), max_eq_left h]
  · rw [if_pos h, max_eq_right (le_of_lt h)]

theorem foldl_maxEnd (ps : List (String × Int)) (ks : List String) :
    ∀ c a, (∀ x ∈ ks, 0 < lookupW ps x) → ks ≠ [] →
      (buildIntervals ps c ks).foldl (fun m i => if i.End > m then i.End else m) a =
        max a (c + wsum ps ks - 1) := by
  induction ks with
  | nil => intro c a _ hne; exact absurd rfl hne
  | cons k ks ih =>
    intro c a hpos _
    have hw := hpos k (List.mem_cons_self _ _)
    have hrest : ∀ x ∈ ks, 0 < lookupW ps x := fun x hx => hpos x (List.mem_cons_of_mem _ hx)
    rw [buildIntervals, List.foldl_cons]
    have hproj : (⟨c, c + lookupW ps k - 1, k⟩ : Interval).End = c + lookupW ps k - 1 := rfl
    rw [hproj, if_max a (c + lookupW ps k - 1)]
    cases hks : ks with
    | nil =>
      simp only [buildIntervals, List.foldl_nil]
      have hws : wsum ps [k] = lookupW ps k := by simp [wsum, lookupW]
      rw [hws]
    | cons k' ks' =>
      rw [← hks]
      have hksne : ks ≠ [] := by rw [hks]; simp
      rw [ih (c + lookupW ps k) (max a (c + lookupW ps k - 1)) hrest hksne]
      rw [max_assoc]
      have hwpos := wsum_pos ps ks hrest hksne
      have hinner : max (c + lookupW ps k - 1) (c + lookupW ps k + wsum ps ks - 1) =
          c + lookupW ps k + wsum ps ks - 1 := max_eq_right (by omega)
      rw [hinner, wsum_cons]
      have harith : c + lookupW ps k + wsum ps ks - 1 =
          c + (lookupW ps k + wsum ps ks) - 1 := by ring
      rw [harith]

theorem GetUpperEnd_build (ps : List (String × Int)) (ks : List String)
    (hpos : ∀ x ∈ ks, 0 < lookupW ps x) (hne : ks ≠ []) :
    Stencil.GetUpperEnd ⟨buildIntervals ps 0 ks⟩ = some (wsum ps ks - 1) := by
  unfold Stencil.GetUpperEnd
  have hnonempty : (buildIntervals ps 0 ks).isEmpty = false := by
    cases ks with
    | nil => exact absurd rfl hne
    | cons k ks => rfl
  simp only [hnonempty, Bool.false_eq_true, if_false]
  rw [foldl_maxEnd ps ks 0 0 hpos hne]
  have hwpos := wsum_pos ps ks hpos hne
  rw [max_eq_right (by omega)]
  simp

theorem randIntn_range (seed : Nat) (n : Int) (hn : 0 < n) :
    0 ≤ randIntn seed n ∧ randIntn seed n < n := by
  unfold randIntn
  rw [if_neg (not_le.mpr hn)]
  exact ⟨Int.emod_nonneg _ (by omega), Int.emod_lt_of_pos _ hn⟩

theorem stencilKeys_perm (ps : List (String × Int)) :
    (List.insertionSort (· ≤ ·) (ps.map Prod.fst)).Perm (ps.map Prod.fst) :=
  List.perm_insertionSort _ _

theorem DoesDistOwnResource_some (s : Stencil) (r : Resource) (d : String) :
    DoesDistOwnResource (some s) r d = (s.filterFuncApplied d r).getD false := rfl

theorem filterFuncApplied_eq (s : Stencil) (d : String) (r : Resource) (u : Int)
    (hu : s.GetUpperEnd = some u) :
    s.filterFuncApplied d r =
      some (if r.distributor ≠ "" then decide (r.distributor = d)
            else match s.FindByValue (randIntn r.uid (u + 1)) with
                 | some i => decide (i.Name = d)
                 | none => false) := by
  unfold Stencil.filterFuncApplied
  rw [hu]

theorem owns_char (ps : List (String × Int)) (hne : ps ≠ [])
    (hpos : ∀ p ∈ ps, 0 < p.2) (r : Resource) :
    (r.distributor ≠ "" → ∀ d, DoesDistOwnResource (some (BuildStencil ps)) r d =
        decide (r.distributor = d)) ∧
    (r.distributor = "" → ∃ i₀,
      (BuildStencil ps).FindByValue (stencilBucket (BuildStencil ps) r) = some i₀ ∧
      i₀ ∈ (BuildStencil ps).intervals ∧
      i₀.Contains (stencilBucket (BuildStencil ps) r) = true ∧
      ∀ d, DoesDistOwnResource (some (BuildStencil ps)) r d = decide (i₀.Name = d)) := by
  have hkperm := stencilKeys_perm ps
  set keys := List.insertionSort (· ≤ ·) (ps.map Prod.fst) with hkeys
  have hkpos : ∀ x ∈ keys, 0 < lookupW ps x :=
    fun x hx => lookupW_pos ps x hpos (hkperm.subset hx)
  have hkne : keys ≠ [] := by
    intro h
    apply hne
    have hlen := hkperm.length_eq
    rw [h] at hlen
    simp only [List.length_nil, List.length_map] at hlen
    exact List.length_eq_zero.mp hlen.symm
  have hupper : (BuildStencil ps).GetUpperEnd = some (wsum ps keys - 1) :=
    GetUpperEnd_build ps keys hkpos hkne
  have hwpos := wsum_pos ps keys hkpos hkne
  have hbucket : stencilBucket (BuildStencil ps) r = randIntn r.uid (wsum ps keys - 1 + 1) := by
    unfold stencilBucket
    rw [hupper]
  constructor
  · intro hd d
    rw [DoesDistOwnResource_some, filterFuncApplied_eq _ _ _ _ hupper, Option.getD_some,
      if_pos hd]
  · intro hd
    have hrange : 0 ≤ stencilBucket (BuildStencil ps) r ∧
        stencilBucket (BuildStencil ps) r < wsum ps keys := by
      rw [hbucket]
      have heq : wsum ps keys - 1 + 1 = wsum ps keys := by ring
      rw [heq]
      exact randIntn_range r.uid (wsum ps keys) hwpos
    obtain ⟨i₀, hmem, hcont⟩ := buildIntervals_cover ps keys 0
      (stencilBucket (BuildStencil ps) r) hkpos hrange.1 (by omega)
    have hfind : (BuildStencil ps).FindByValue (stencilBucket (BuildStencil ps) r) ≠ none := by
      intro hnone
      unfold Stencil.FindByValue at hnone
      rw [List.find?_eq_none] at hnone
      exact hnone i₀ hmem hcont
    cases hf : (BuildStencil ps).FindByValue (stencilBucket (BuildStencil ps) r) with
    | none => exact absurd hf hfind
    | some j₀ =>
      have hf' := hf
      unfold Stencil.FindByValue at hf'
      have hjmem : j₀ ∈ (BuildStencil ps).intervals := List.mem_of_find?_eq_some hf'
      have hjcont0 := List.find?_some hf'
      have hjcont : j₀.Contains (stencilBucket (BuildStencil ps) r) = true := hjcont0
      refine ⟨j₀, rfl, hjmem, hjcont, ?_⟩
      intro d
      rw [DoesDistOwnResource_some, filterFuncApplied_eq _ _ _ _ hupper, Option.getD_some,
        if_neg (by simp [hd])]
      rw [← hbucket, hf]



theorem getD_set_self (ring : List HNode) (i : Nat) (v : HNode)
    (hi : i < ring.length) : (ring.set i v).getD i dummyNode = v := by
  rw [List.getD_eq_getElem _ _ (by rw [List.length_set]; exact hi), List.getElem_set]
  simp

theorem getD_mem (ring : List HNode) (i : Nat) (hi : i < ring.length) :
    ring.getD i dummyNode ∈ ring := by
  rw [List.getD_eq_getElem _ _ hi]
  exact List.getElem_mem _

theorem key_mem_ringKeys (ring : List HNode) (n : HNode) (h : n ∈ ring) :
    n.key ∈ ringKeys ring := List.mem_map_of_mem HNode.key h

theorem getIndex_found_at (ring : List HNode) (k : Nat) (i : Nat)
    (hsort : SortedRing ring) (hi : i < ring.length)
    (hk : (ring.getD i dummyNode).key = k) : getIndex ring k = .found i := by
  have hmem : k ∈ ringKeys ring := by
    rw [← hk]
    exact key_mem_ringKeys ring _ (getD_mem ring i hi)
  have hfound := mem_getIndex_found ring k hsort hmem
  obtain ⟨hlt, hkey⟩ := getIndex_found_key ring k _ hfound
  have heq : searchIndex ring k = i := by
    by_contra hne
    rcases Nat.lt_or_ge (searchIndex ring k) i with h | h
    · have := (List.pairwise_iff_getElem.mp hsort) (searchIndex ring k) i
        (by rw [length_ringKeys]; omega) (by rw [length_ringKeys]; omega) h
      rw [← getD_key_eq ring (searchIndex ring k) (by rw [length_ringKeys]; omega),
        ← getD_key_eq ring i (by rw [length_ringKeys]; omega)] at this
      omega
    · have hlt2 : i < searchIndex ring k := by omega
      have := (List.pairwise_iff_getElem.mp hsort) i (searchIndex ring k)
        (by rw [length_ringKeys]; omega) (by rw [length_ringKeys]; omega) hlt2
      rw [← getD_key_eq ring (searchIndex ring k) (by rw [length_ringKeys]; omega),
        ← getD_key_eq ring i (by rw [length_ringKeys]; omega)] at this
      omega
  rw [heq] at hfound
  exact hfound

/-- C1: for every resource `r`, distributor name `d` and proportions map,
`DoesDistOwnResource(r, d)` on the stencil built from that map is a pure
function of `r`'s `Uid`, `r`'s `Distributor()` pin and the proportions
table with its sorted distributor name list: two resources agreeing on
`Uid` and pin (whatever their other fields) are assigned identically, so
any two evaluations — in the same or in independent processes — return
the same boolean. -/
theorem doesDistOwnResource_pure (ps : List (String × Int)) (r1 r2 : Resource)
    (d : String) (huid : r1.uid = r2.uid) (hdist : r1.distributor = r2.distributor) :
    DoesDistOwnResource (some (BuildStencil ps)) r1 d =
      DoesDistOwnResource (some (BuildStencil ps)) r2 d := by
  rw [DoesDistOwnResource_some, DoesDistOwnResource_some]
  unfold Stencil.filterFuncApplied
  rw [huid, hdist]

/-- Witness for C1 at a concrete input: two resources sharing `Uid` 7 and
an empty pin but differing in type, `Oid` and expiry are assigned alike. -/
theorem doesDistOwnResource_pure_witness :
    DoesDistOwnResource (some (BuildStencil [("moat", 2)])) ⟨"obfs4", 7, 1, "", 0⟩ "moat" =
      DoesDistOwnResource (some (BuildStencil [("moat", 2)])) ⟨"snowflake", 7, 2, "", 99⟩
        "moat" :=
  doesDistOwnResource_pure [("moat", 2)] ⟨"obfs4", 7, 1, "", 0⟩ ⟨"snowflake", 7, 2, "", 99⟩
    "moat" rfl rfl

/-- C2: for every stencil built by `BuildStencil` from a non-empty
proportions map with positive weights and every resource `r`, exactly one
distributor name owns `r`: the pin when `r.Distributor()` is non-empty,
and otherwise the name of the unique interval containing `r`'s computed
bucket. -/
theorem buildStencil_unique_owner (ps : List (String × Int)) (hne : ps ≠ [])
    (hpos : ∀ p ∈ ps, 0 < p.2) (r : Resource) :
    (∃! d : String, DoesDistOwnResource (some (BuildStencil ps)) r d = true) ∧
    (r.distributor ≠ "" →
      DoesDistOwnResource (some (BuildStencil ps)) r r.distributor = true) ∧
    (r.distributor = "" → ∃! i : Interval,
      i ∈ (BuildStencil ps).intervals ∧
      i.Contains (stencilBucket (BuildStencil ps) r) = true ∧
      DoesDistOwnResource (some (BuildStencil ps)) r i.Name = true) := by
  have hkperm := stencilKeys_perm ps
  set keys := List.insertionSort (· ≤ ·) (ps.map Prod.fst) with hkeys
  have hkpos : ∀ x ∈ keys, 0 < lookupW ps x :=
    fun x hx => lookupW_pos ps x hpos (hkperm.subset hx)
  have hints : (BuildStencil ps).intervals = buildIntervals ps 0 keys := rfl
  obtain ⟨hpin, hunpin⟩ := owns_char ps hne hpos r
  by_cases hd : r.distributor = ""
  · obtain ⟨i₀, hfind, hmem, hcont, howns⟩ := hunpin hd
    refine ⟨⟨i₀.Name, ?_, ?_⟩, fun h => absurd hd h, fun _ => ⟨i₀, ⟨hmem, hcont, ?_⟩, ?_⟩⟩
    · simp [howns]
    · intro d' hd'
      simp only [howns, decide_eq_true_eq] at hd'
      exact hd'.symm
    · simp [howns]
    · intro j hj
      rw [hints] at hj hmem
      exact buildIntervals_disjoint ps keys 0 (stencilBucket (BuildStencil ps) r) j i₀
        hkpos hj.1 hmem hj.2.1 hcont
  · have howns := hpin hd
    refine ⟨⟨r.distributor, ?_, ?_⟩, fun _ => ?_, fun h => absurd h hd⟩
    · simp [howns]
    · intro d' hd'
      simp only [howns, decide_eq_true_eq] at hd'
      exact hd'.symm
    · simp [howns]

/-- Witness for C2 at a concrete input: the stencil of `{moat: 3}` and an
unpinned resource with `Uid` 7. -/
theorem buildStencil_unique_owner_witness :
    (∃! d : String,
      DoesDistOwnResource (some (BuildStencil [("moat", 3)])) ⟨"obfs4", 7, 1, "", 0⟩ d =
        true) ∧
    ((⟨"obfs4", 7, 1, "", 0⟩ : Resource).distributor ≠ "" →
      DoesDistOwnResource (some (BuildStencil [("moat", 3)])) ⟨"obfs4", 7, 1, "", 0⟩
        (⟨"obfs4", 7, 1, "", 0⟩ : Resource).distributor = true) ∧
    ((⟨"obfs4", 7, 1, "", 0⟩ : Resource).distributor = "" → ∃! i : Interval,
      i ∈ (BuildStencil [("moat", 3)]).intervals ∧
      i.Contains (stencilBucket (BuildStencil [("moat", 3)]) ⟨"obfs4", 7, 1, "", 0⟩) = true ∧
      DoesDistOwnResource (some (BuildStencil [("moat", 3)])) ⟨"obfs4", 7, 1, "", 0⟩
        i.Name = true) :=
  buildStencil_unique_owner [("moat", 3)] (by decide) (by decide) ⟨"obfs4", 7, 1, "", 0⟩

/-- C5: after any finite sequence of `Add`, `AddOrUpdate` and `Remove`
operations applied to an initially empty hashring, the hashnodes are
sorted strictly ascending by `Uid`, and in particular no two nodes share
a `Uid`. -/
theorem runOps_sorted_unique (ops : List HOp) :
    SortedRing (runOps ops) ∧ (ringKeys (runOps ops)).Nodup := by
  have hs : SortedRing (runOps ops) := sortedRing_foldl ops [] List.Pairwise.nil
  exact ⟨hs, hs.imp (fun h => Nat.ne_of_lt h)⟩


/-- C3 (the code at the failing input): `Prune` iterates the Go `range`
snapshot while `remove` shifts the remaining nodes left in the same
backing array, so the node that slides into the just-processed slot is
never examined.  On a ring of three nodes with keys 1, 2, 3 — the first
two expired (`lastUpdate = 0`, `Expiry = 10`, `now = 50`, so
`now - lastUpdate = 50 > 10`), the third fresh — `Prune` removes and
returns only the key-1 node: the expired key-2 node survives in the ring
even though `now - lastUpdate > Expiry()`, contradicting the claim. -/
theorem prune_leaves_expired_node :
    Prune [⟨1, ⟨"obfs4", 1, 10, "", 10⟩, 0⟩, ⟨2, ⟨"obfs4", 2, 20, "", 10⟩, 0⟩,
           ⟨3, ⟨"obfs4", 3, 30, "", 10⟩, 100⟩] 50 =
      ([⟨2, ⟨"obfs4", 2, 20, "", 10⟩, 0⟩, ⟨3, ⟨"obfs4", 3, 30, "", 10⟩, 100⟩],
       [⟨"obfs4", 1, 10, "", 10⟩]) ∧
    (10 : Int) < 50 - 0 := by
  decide

/-- C4 counterexample: on a hashring that already holds `Uid` 1 with
`Oid` 10, the two calls `AddOrUpdate(r1)` (`Oid` 20) and `AddOrUpdate(r2)`
(`Oid` 30) — equal `Uid`s, different `Oid`s — both return `Changed`, so
the sequence yields two `Changed` results, not exactly one as the claim
states for every hashring. -/
theorem addOrUpdate_two_changed_counterexample :
    (AddOrUpdate [⟨1, ⟨"obfs4", 1, 10, "", 0⟩, 0⟩] ⟨"obfs4", 1, 20, "", 0⟩ 0).2 =
      ResourceChanged ∧
    (AddOrUpdate (AddOrUpdate [⟨1, ⟨"obfs4", 1, 10, "", 0⟩, 0⟩] ⟨"obfs4", 1, 20, "", 0⟩ 0).1
      ⟨"obfs4", 1, 30, "", 0⟩ 0).2 = ResourceChanged ∧
    (⟨"obfs4", 1, 20, "", 0⟩ : Resource).uid = (⟨"obfs4", 1, 30, "", 0⟩ : Resource).uid ∧
    (⟨"obfs4", 1, 20, "", 0⟩ : Resource).oid ≠ (⟨"obfs4", 1, 30, "", 0⟩ : Resource).oid := by
  decide

/-- C4 (amended): on a sorted hashring, `AddOrUpdate(r)` returns
`Unchanged` when the stored node with `r`'s `Uid` has an equal `Oid`
(only its timestamp is refreshed), replaces the stored value, refreshes
the timestamp and returns `Changed` when the `Oid` differs, and inserts
`r` returning `New` when the `Uid` is absent.  The two-call sequence
`AddOrUpdate(r1); AddOrUpdate(r2)` with equal `Uid`s and different `Oid`s
yields exactly one `Changed` — the second call — provided the ring does
not already hold `Uid(r1)` with an `Oid` differing from `Oid(r1)` (the
counterexample shows that without this proviso both calls may return
`Changed`). -/
theorem addOrUpdate_cases (ring : List HNode) (r1 r2 : Resource) (now1 now2 : Int)
    (hsort : SortedRing ring) (huid : r1.uid = r2.uid) (hoid : r1.oid ≠ r2.oid) :
    (∀ i, i < ring.length → (ring.getD i dummyNode).key = r1.uid →
      ((ring.getD i dummyNode).res.oid = r1.oid →
        AddOrUpdate ring r1 now1 =
          (ring.set i { ring.getD i dummyNode with lastUpdate := now1 },
           ResourceUnchanged)) ∧
      ((ring.getD i dummyNode).res.oid ≠ r1.oid →
        AddOrUpdate ring r1 now1 =
          (ring.set i ⟨(ring.getD i dummyNode).key, r1, now1⟩, ResourceChanged))) ∧
    (r1.uid ∉ ringKeys ring →
      AddOrUpdate ring r1 now1 =
        (sortNodes (ring ++ [⟨r1.uid, r1, now1⟩]), ResourceIsNew)) ∧
    ((∀ i, i < ring.length → (ring.getD i dummyNode).key = r1.uid →
        (ring.getD i dummyNode).res.oid = r1.oid) →
      (AddOrUpdate ring r1 now1).2 ≠ ResourceChanged ∧
      (AddOrUpdate (AddOrUpdate ring r1 now1).1 r2 now2).2 = ResourceChanged) := by
  refine ⟨?_, ?_, ?_⟩
  · intro i hi hk
    have hf := getIndex_found_at ring r1.uid i hsort hi hk
    constructor
    · intro heq
      rw [AddOrUpdate_found ring r1 now1 i hf, if_neg (not_not_intro heq)]
    · intro hne
      rw [AddOrUpdate_found ring r1 now1 i hf, if_pos hne]
  · intro hnm
    cases hg : getIndex ring r1.uid with
    | found i =>
      obtain ⟨hlt, hkey⟩ := getIndex_found_key ring r1.uid i hg
      exact absurd (by rw [← hkey]; exact key_mem_ringKeys ring _ (getD_mem ring i hlt)) hnm
    | notFound i => exact AddOrUpdate_notFound ring r1 now1 i hg
    | empty => exact AddOrUpdate_empty ring r1 now1 hg
  · intro hclean
    by_cases hmem : r1.uid ∈ ringKeys ring
    · have hf := mem_getIndex_found ring r1.uid hsort hmem
      obtain ⟨hlt, hkey⟩ := getIndex_found_key ring r1.uid _ hf
      have hoideq := hclean _ hlt hkey
      have he1 : AddOrUpdate ring r1 now1 =
          (ring.set (searchIndex ring r1.uid)
            { ring.getD (searchIndex ring r1.uid) dummyNode with lastUpdate := now1 },
           ResourceUnchanged) := by
        rw [AddOrUpdate_found ring r1 now1 _ hf, if_neg (not_not_intro hoideq)]
      rw [he1]
      constructor
      · show ResourceUnchanged ≠ ResourceChanged
        decide
      · have hsort1 : SortedRing (ring.set (searchIndex ring r1.uid)
            { ring.getD (searchIndex ring r1.uid) dummyNode with lastUpdate := now1 }) :=
          sortedRing_set ring _ _ rfl hsort
        have hget1 : (ring.set (searchIndex ring r1.uid)
            { ring.getD (searchIndex ring r1.uid) dummyNode with lastUpdate := now1 }).getD
              (searchIndex ring r1.uid) dummyNode =
            { ring.getD (searchIndex ring r1.uid) dummyNode with lastUpdate := now1 } :=
          getD_set_self ring _ _ hlt
        have hkey1 : ((ring.set (searchIndex ring r1.uid)
            { ring.getD (searchIndex ring r1.uid) dummyNode with lastUpdate := now1 }).getD
              (searchIndex ring r1.uid) dummyNode).key = r2.uid := by
          rw [hget1]
          show (ring.getD (searchIndex ring r1.uid) dummyNode).key = r2.uid
          rw [← huid]
          exact hkey
        have hf2 := getIndex_found_at _ r2.uid (searchIndex ring r1.uid) hsort1
          (by rw [List.length_set]; exact hlt) hkey1
        have hcond : ((ring.set (searchIndex ring r1.uid)
            { ring.getD (searchIndex ring r1.uid) dummyNode with lastUpdate := now1 }).getD
              (searchIndex ring r1.uid) dummyNode).res.oid ≠ r2.oid := by
          rw [hget1]
          show (ring.getD (searchIndex ring r1.uid) dummyNode).res.oid ≠ r2.oid
          rw [hoideq]
          exact hoid
        rw [AddOrUpdate_found _ r2 now2 _ hf2, if_pos hcond]
    · have he1 : AddOrUpdate ring r1 now1 =
          (sortNodes (ring ++ [⟨r1.uid, r1, now1⟩]), ResourceIsNew) := by
        cases hg : getIndex ring r1.uid with
        | found i =>
          obtain ⟨hlt, hkey⟩ := getIndex_found_key ring r1.uid i hg
          exact absurd (by rw [← hkey]; exact key_mem_ringKeys ring _ (getD_mem ring i hlt))
            hmem
        | notFound i => exact AddOrUpdate_notFound ring r1 now1 i hg
        | empty => exact AddOrUpdate_empty ring r1 now1 hg
      rw [he1]
      constructor
      · show ResourceIsNew ≠ ResourceChanged
        decide
      · have hsort1 : SortedRing (sortNodes (ring ++ [⟨r1.uid, r1, now1⟩])) :=
          sortedRing_of_nodup_insert ring r1 now1 hsort hmem
        have hperm : (sortNodes (ring ++ [⟨r1.uid, r1, now1⟩])).Perm
            (ring ++ [⟨r1.uid, r1, now1⟩]) := sortNodes_perm _
        have hmem2 : r2.uid ∈ ringKeys (sortNodes (ring ++ [⟨r1.uid, r1, now1⟩])) := by
          rw [← huid]
          have hm : r1.uid ∈ ringKeys (ring ++ [⟨r1.uid, r1, now1⟩]) := by
            rw [ringKeys_append_single]
            simp
          exact ((hperm.map HNode.key).mem_iff).mpr hm
        have hf2 := mem_getIndex_found _ r2.uid hsort1 hmem2
        obtain ⟨hlt2, hkey2⟩ := getIndex_found_key _ r2.uid _ hf2
        have hnode2 : (sortNodes (ring ++ [⟨r1.uid, r1, now1⟩])).getD
            (searchIndex (sortNodes (ring ++ [⟨r1.uid, r1, now1⟩])) r2.uid) dummyNode =
            ⟨r1.uid, r1, now1⟩ := by
          have hin := getD_mem _ _ hlt2
          have hin2 := hperm.subset hin
          rcases List.mem_append.mp hin2 with h | h
          · exfalso
            apply hmem
            have hkr1 : ((sortNodes (ring ++ [⟨r1.uid, r1, now1⟩])).getD
                (searchIndex (sortNodes (ring ++ [⟨r1.uid, r1, now1⟩])) r2.uid)
                  dummyNode).key = r1.uid := by
              rw [hkey2]
              exact huid.symm
            rw [← hkr1]
            exact key_mem_ringKeys ring _ h
          · simpa using h
        have hcond : ((sortNodes (ring ++ [⟨r1.uid, r1, now1⟩])).getD
            (searchIndex (sortNodes (ring ++ [⟨r1.uid, r1, now1⟩])) r2.uid)
              dummyNode).res.oid ≠ r2.oid := by
          rw [hnode2]
          exact hoid
        rw [AddOrUpdate_found _ r2 now2 _ hf2, if_pos hcond]

/-- Witness for C4 at a concrete input: the empty ring and two resources
with `Uid` 1 and `Oid`s 10 and 20. -/
theorem addOrUpdate_cases_witness :
    (∀ i, i < ([] : List HNode).length → (([] : List HNode).getD i dummyNode).key =
        (⟨"t", 1, 10, "", 0⟩ : Resource).uid →
      ((([] : List HNode).getD i dummyNode).res.oid = (⟨"t", 1, 10, "", 0⟩ : Resource).oid →
        AddOrUpdate [] ⟨"t", 1, 10, "", 0⟩ 0 =
          (([] : List HNode).set i
            { ([] : List HNode).getD i dummyNode with lastUpdate := 0 },
           ResourceUnchanged)) ∧
      ((([] : List HNode).getD i dummyNode).res.oid ≠ (⟨"t", 1, 10, "", 0⟩ : Resource).oid →
        AddOrUpdate [] ⟨"t", 1, 10, "", 0⟩ 0 =
          (([] : List HNode).set i ⟨(([] : List HNode).getD i dummyNode).key,
            ⟨"t", 1, 10, "", 0⟩, 0⟩, ResourceChanged))) ∧
    ((⟨"t", 1, 10, "", 0⟩ : Resource).uid ∉ ringKeys [] →
      AddOrUpdate [] ⟨"t", 1, 10, "", 0⟩ 0 =
        (sortNodes ([] ++ [⟨(⟨"t", 1, 10, "", 0⟩ : Resource).uid, ⟨"t", 1, 10, "", 0⟩, 0⟩]),
         ResourceIsNew)) ∧
    ((∀ i, i < ([] : List HNode).length → (([] : List HNode).getD i dummyNode).key =
        (⟨"t", 1, 10, "", 0⟩ : Resource).uid →
        (([] : List HNode).getD i dummyNode).res.oid = (⟨"t", 1, 10, "", 0⟩ : Resource).oid) →
      (AddOrUpdate [] ⟨"t", 1, 10, "", 0⟩ 0).2 ≠ ResourceChanged ∧
      (AddOrUpdate (AddOrUpdate [] ⟨"t", 1, 10, "", 0⟩ 0).1 ⟨"t", 1, 20, "", 0⟩ 0).2 =
        ResourceChanged) :=
  addOrUpdate_cases [] ⟨"t", 1, 10, "", 0⟩ ⟨"t", 1, 20, "", 0⟩ 0 0 List.Pairwise.nil
    rfl (by decide)


theorem lookup_updateAssoc_self {α : Type} (m : List (String × α)) (k : String) (v : α) :
    k ∈ m.map Prod.fst → (updateAssoc m k v).lookup k = some v := by
  induction m with
  | nil => intro h; simp at h
  | cons p ps ih =>
    intro hmem
    simp only [updateAssoc, List.map_cons]
    by_cases hp : p.1 = k
    · rw [if_pos hp]
      rw [List.lookup]
      simp
    · rw [if_neg hp]
      rw [List.lookup]
      have hbeq : (k == p.1) = false := beq_eq_false_iff_ne.mpr (fun h => hp h.symm)
      simp only [hbeq]
      apply ih
      simp only [List.map_cons, List.mem_cons] at hmem
      rcases hmem with h | h
      · exact absurd h.symm hp
      · exact h

theorem lookup_updateAssoc_other {α : Type} (m : List (String × α)) (k : String) (v : α)
    (d : String) (hd : d ≠ k) : (updateAssoc m k v).lookup d = m.lookup d := by
  induction m with
  | nil => rfl
  | cons p ps ih =>
    simp only [updateAssoc, List.map_cons]
    by_cases hp : p.1 = k
    · rw [if_pos hp]
      rw [List.lookup, List.lookup]
      have h1 : (d == k) = false := beq_eq_false_iff_ne.mpr hd
      have h2 : (d == p.1) = false := beq_eq_false_iff_ne.mpr (by rw [hp]; exact hd)
      simp only [h1, h2]
      exact ih
    · rw [if_neg hp]
      rw [List.lookup, List.lookup]
      by_cases hdp : d = p.1
      · have : (d == p.1) = true := beq_iff_eq.mpr hdp
        simp only [this]
      · have : (d == p.1) = false := beq_eq_false_iff_ne.mpr hdp
        simp only [this]
        exact ih

theorem updateAssoc_keys {α : Type} (m : List (String × α)) (k : String) (v : α) :
    (updateAssoc m k v).map Prod.fst = m.map Prod.fst := by
  induction m with
  | nil => rfl
  | cons p ps ih =>
    simp only [updateAssoc, List.map_cons] at ih ⊢
    by_cases hp : p.1 = k
    · rw [if_pos hp]
      simp only [List.map_cons, ih]
      rw [hp]
    · rw [if_neg hp]
      simp only [List.map_cons, ih]

theorem lookup_none_of_not_mem {α : Type} (m : List (String × α)) (k : String)
    (h : k ∉ m.map Prod.fst) : m.lookup k = none := by
  cases hl : m.lookup k with
  | none => rfl
  | some w =>
    exact absurd (List.mem_map_of_mem Prod.fst (lookup_mem m k w hl)) h

theorem getIndex_ne_empty (ring : List HNode) (k : Nat) (hne : ring.length ≠ 0) :
    getIndex ring k ≠ .empty := by
  unfold getIndex
  rw [if_neg hne]
  split <;> simp

theorem getIndex_index_eq (ring : List HNode) (k : Nat) (i : Nat)
    (h : getIndex ring k = .found i ∨ getIndex ring k = .notFound i) :
    i = searchIndex ring k := by
  unfold getIndex at h
  by_cases hlen : ring.length = 0
  · rw [if_pos hlen] at h
    rcases h with h | h <;> simp at h
  · rw [if_neg hlen] at h
    split at h <;> rcases h with h | h <;> simp at h <;> omega


/-- C6: whenever the fraction of network-status entries carrying the
`Running` flag is below 0.5, the ingestion cycle is aborted wholesale:
`loadBridgesFromNetworkstatus` returns the `NotEnoughRunning` error,
`reloadBridgeDescriptors` sets the ignoring metric to 1, leaves the
backend state untouched and posts nothing to any subscriber. -/
theorem notEnoughRunning_aborts_cycle (inp : KrakenInputs) (st : BackendState)
    (now : Int) (entries : List NSEntry) (hdoc : inp.nsDoc = some entries)
    (hfrac : 2 * (entries.filter (fun e => e.flags.running)).length < entries.length) :
    loadBridgesFromNetworkstatus inp.nsDoc = .error .notEnoughRunning ∧
    reloadBridgeDescriptors inp st now = (st, 1, []) := by
  have hload : loadBridgesFromNetworkstatus inp.nsDoc = .error .notEnoughRunning := by
    rw [hdoc]
    show (if 2 * (entries.filter (fun e => e.flags.running)).length < entries.length then
            (.error .notEnoughRunning : Except LoadErr (List Bridge))
          else .ok ((entries.filter (fun e => e.flags.running)).map mkBridge)) =
         .error .notEnoughRunning
    rw [if_pos hfrac]
  refine ⟨hload, ?_⟩
  unfold reloadBridgeDescriptors
  rw [hload]
  simp

/-- Witness for C6 at a concrete input: a two-entry network status with no
`Running` entry, an empty backend. -/
theorem notEnoughRunning_aborts_cycle_witness :
    loadBridgesFromNetworkstatus
        (KrakenInputs.mk (some [⟨"f1", ⟨false, false, false, false⟩, false, 1, 1, 0⟩,
          ⟨"f2", ⟨false, false, false, false⟩, false, 2, 2, 0⟩]) none none none [] []).nsDoc =
      .error .notEnoughRunning ∧
    reloadBridgeDescriptors
        (KrakenInputs.mk (some [⟨"f1", ⟨false, false, false, false⟩, false, 1, 1, 0⟩,
          ⟨"f2", ⟨false, false, false, false⟩, false, 2, 2, 0⟩]) none none none [] [])
        ⟨[], []⟩ 0 = (⟨[], []⟩, 1, []) :=
  notEnoughRunning_aborts_cycle _ ⟨[], []⟩ 0
    [⟨"f1", ⟨false, false, false, false⟩, false, 1, 1, 0⟩,
     ⟨"f2", ⟨false, false, false, false⟩, false, 2, 2, 0⟩] rfl (by decide)

/-- C7 counterexample: on the empty hashring, `GetMany(0, 0)` asks for 0
elements — not more than the ring holds — yet the code returns an error
(`getIndex` fails with `(-1, err)` on an empty ring), refuting the
claim's "otherwise GetMany returns exactly n resources". -/
theorem getMany_empty_zero_counterexample :
    GetMany ([] : List HNode) 0 0 = none ∧ ¬ ([] : List HNode).length < 0 := by
  decide

/-- C7 (amended): on a sorted hashring, `GetMany(k, n)` errors when `n`
exceeds the ring size and also when the ring is empty (even for `n = 0`);
otherwise it returns exactly the `n` resources at the consecutive
circular positions starting at the position of `k` — the first node whose
`Uid` is at least `k`, wrapping to index 0 when `k` is greater than every
`Uid` (`circularStartSpec`).  The result is a pure function of the ring
contents, `k` and `n`. -/
theorem getMany_spec (ring : List HNode) (k : Nat) (num : Nat) (hsort : SortedRing ring) :
    (ring.length < num → GetMany ring k num = none) ∧
    (ring = [] → GetMany ring k num = none) ∧
    (num ≤ ring.length → ring ≠ [] →
      GetMany ring k num =
        some ((List.range num).map fun j =>
          (ring.getD ((circularStartSpec ring k + j) % ring.length) dummyNode).res)) := by
  refine ⟨?_, ?_, ?_⟩
  · intro hlt
    unfold GetMany
    rw [if_pos hlt]
  · intro h
    subst h
    unfold GetMany
    split
    · rfl
    · rfl
  · intro hnum hne
    have hlen : ring.length ≠ 0 := by
      intro h
      exact hne (List.length_eq_zero.mp h)
    unfold GetMany
    rw [if_neg (not_lt.mpr hnum)]
    cases hg : getIndex ring k with
    | empty => exact absurd hg (getIndex_ne_empty ring k hlen)
    | found i =>
      have hi : i = searchIndex ring k := getIndex_index_eq ring k i (Or.inl hg)
      rw [hi, searchIndex_eq_startSpec ring k hsort]
    | notFound i =>
      have hi : i = searchIndex ring k := getIndex_index_eq ring k i (Or.inr hg)
      rw [hi, searchIndex_eq_startSpec ring k hsort]

/-- Witness for C7 at a concrete input: a sorted two-node ring, `k = 3`,
`n = 2`. -/
theorem getMany_spec_witness :
    (([⟨1, ⟨"a", 1, 1, "", 0⟩, 0⟩, ⟨5, ⟨"a", 5, 1, "", 0⟩, 0⟩] : List HNode).length < 2 →
      GetMany [⟨1, ⟨"a", 1, 1, "", 0⟩, 0⟩, ⟨5, ⟨"a", 5, 1, "", 0⟩, 0⟩] 3 2 = none) ∧
    (([⟨1, ⟨"a", 1, 1, "", 0⟩, 0⟩, ⟨5, ⟨"a", 5, 1, "", 0⟩, 0⟩] : List HNode) = [] →
      GetMany [⟨1, ⟨"a", 1, 1, "", 0⟩, 0⟩, ⟨5, ⟨"a", 5, 1, "", 0⟩, 0⟩] 3 2 = none) ∧
    (2 ≤ ([⟨1, ⟨"a", 1, 1, "", 0⟩, 0⟩, ⟨5, ⟨"a", 5, 1, "", 0⟩, 0⟩] : List HNode).length →
      ([⟨1, ⟨"a", 1, 1, "", 0⟩, 0⟩, ⟨5, ⟨"a", 5, 1, "", 0⟩, 0⟩] : List HNode) ≠ [] →
      GetMany [⟨1, ⟨"a", 1, 1, "", 0⟩, 0⟩, ⟨5, ⟨"a", 5, 1, "", 0⟩, 0⟩] 3 2 =
        some ((List.range 2).map fun j =>
          (([⟨1, ⟨"a", 1, 1, "", 0⟩, 0⟩, ⟨5, ⟨"a", 5, 1, "", 0⟩, 0⟩] : List HNode).getD
            ((circularStartSpec [⟨1, ⟨"a", 1, 1, "", 0⟩, 0⟩, ⟨5, ⟨"a", 5, 1, "", 0⟩, 0⟩] 3 + j) %
              ([⟨1, ⟨"a", 1, 1, "", 0⟩, 0⟩, ⟨5, ⟨"a", 5, 1, "", 0⟩, 0⟩] : List HNode).length)
            dummyNode).res)) :=
  getMany_spec [⟨1, ⟨"a", 1, 1, "", 0⟩, 0⟩, ⟨5, ⟨"a", 5, 1, "", 0⟩, 0⟩] 3 2
    (by unfold SortedRing ringKeys; decide)

/-- C8 counterexample: distributor `"moat"` is registered with the single
channel 1; unregistering the *different* channel 2 clears the whole
channel list (the loop never matches, and the initial empty `newSlice` is
stored), so channel 1 — "every other channel" — does not remain. -/
theorem unregisterChan_absent_clears_counterexample :
    UnregisterChan ⟨[], [("moat", ⟨[1], []⟩)]⟩ "moat" 2 =
      some ⟨[], [("moat", ⟨[], []⟩)]⟩ ∧ (1 : Nat) ≠ 2 := by
  decide

/-- C8 (amended): for a distributor `d` registered with channel list `L`
and a channel `ch` that is *in* `L`, `UnregisterChan(d, ch)` removes only
the single (first) occurrence of `ch`: every other channel of `L` remains
registered, the entry for `d` itself remains, and every other
distributor's entry is untouched.  (When `ch` is not in `L`, the code
instead clears the whole list — see the counterexample.) -/
theorem unregisterChan_removes_single (st : BackendState) (distName : String)
    (er : EventRecipient) (ch : Nat)
    (hlook : st.eventRecipients.lookup distName = some er) (hch : ch ∈ er.chans) :
    ∃ st', UnregisterChan st distName ch = some st' ∧
      st'.eventRecipients.lookup distName =
        some { er with
          chans := er.chans.eraseIdx (er.chans.findIdx (fun c => decide (c = ch))) } ∧
      (∀ c ∈ er.chans, c ≠ ch →
        c ∈ er.chans.eraseIdx (er.chans.findIdx (fun c => decide (c = ch)))) ∧
      (∀ d', d' ≠ distName →
        st'.eventRecipients.lookup d' = st.eventRecipients.lookup d') ∧
      st'.eventRecipients.map Prod.fst = st.eventRecipients.map Prod.fst := by
  have hidx : er.chans.findIdx (fun c => decide (c = ch)) < er.chans.length := by
    rw [List.findIdx_lt_length]
    exact ⟨ch, hch, by simp⟩
  have hmemk : distName ∈ st.eventRecipients.map Prod.fst :=
    List.mem_map_of_mem Prod.fst (lookup_mem _ _ _ hlook)
  have hunreg : unregisterChans er.chans ch =
      er.chans.eraseIdx (er.chans.findIdx (fun c => decide (c = ch))) := by
    unfold unregisterChans
    rw [if_pos hidx]
  refine ⟨⟨st.coll, updateAssoc st.eventRecipients distName ⟨unregisterChans er.chans ch, er.reqTypes⟩⟩, ?_, ?_, ?_, ?_, ?_⟩
  · unfold UnregisterChan
    rw [hlook]
  · show (updateAssoc st.eventRecipients distName
        { er with chans := unregisterChans er.chans ch }).lookup distName = some _
    rw [lookup_updateAssoc_self _ _ _ hmemk, hunreg]
  · intro c hc hne
    obtain ⟨t, ht, hct⟩ := List.mem_iff_getElem.mp hc
    rw [List.mem_eraseIdx_iff_getElem]
    refine ⟨t, ht, ?_, hct⟩
    intro heq
    have hpred := @List.findIdx_getElem _ (fun c => decide (c = ch)) er.chans hidx
    simp only [decide_eq_true_eq] at hpred
    subst heq
    apply hne
    rw [← hct]
    exact hpred
  · intro d' hd'
    show (updateAssoc st.eventRecipients distName
        { er with chans := unregisterChans er.chans ch }).lookup d' = _
    exact lookup_updateAssoc_other _ _ _ _ hd'
  · show (updateAssoc st.eventRecipients distName
        { er with chans := unregisterChans er.chans ch }).map Prod.fst = _
    exact updateAssoc_keys _ _ _

/-- Witness for C8 at a concrete input: `"moat"` holds channels `[1, 2, 3]`
and channel 2 is unregistered. -/
theorem unregisterChan_removes_single_witness :
    ∃ st', UnregisterChan ⟨[], [("moat", ⟨[1, 2, 3], []⟩)]⟩ "moat" 2 = some st' ∧
      st'.eventRecipients.lookup "moat" =
        some { (⟨[1, 2, 3], []⟩ : EventRecipient) with
          chans := ([1, 2, 3] : List Nat).eraseIdx
            (([1, 2, 3] : List Nat).findIdx (fun c => decide (c = 2))) } ∧
      (∀ c ∈ ([1, 2, 3] : List Nat), c ≠ 2 →
        c ∈ ([1, 2, 3] : List Nat).eraseIdx
          (([1, 2, 3] : List Nat).findIdx (fun c => decide (c = 2)))) ∧
      (∀ d', d' ≠ "moat" →
        st'.eventRecipients.lookup d' =
          (⟨[], [("moat", ⟨[1, 2, 3], []⟩)]⟩ : BackendState).eventRecipients.lookup d') ∧
      st'.eventRecipients.map Prod.fst =
        (⟨[], [("moat", ⟨[1, 2, 3], []⟩)]⟩ : BackendState).eventRecipients.map Prod.fst :=
  unregisterChan_removes_single ⟨[], [("moat", ⟨[1, 2, 3], []⟩)]⟩ "moat" ⟨[1, 2, 3], []⟩ 2
    (by decide) (by decide)

/-- C9: `UnregisterChan(distName, ch)` succeeds exactly when `distName`
has an entry in the `EventRecipients` map — the function unconditionally
dereferences `EventRecipients[distName]`, so with an entry present the
dereference never fails, while for a never-registered name it faults
(modelled as `none`) instead of returning an error. -/
theorem unregisterChan_total_iff_registered (st : BackendState) (distName : String)
    (ch : Nat) :
    (UnregisterChan st distName ch).isSome = true ↔
      distName ∈ st.eventRecipients.map Prod.fst := by
  unfold UnregisterChan
  cases hl : st.eventRecipients.lookup distName with
  | none =>
    simp only [Option.isSome_none, Bool.false_eq_true, false_iff]
    intro hmem
    obtain ⟨w, hw⟩ := lookup_isSome_of_mem _ _ hmem
    rw [hl] at hw
    exact Option.noConfusion hw
  | some er =>
    simp only [Option.isSome_some, true_iff]
    exact List.mem_map_of_mem Prod.fst (lookup_mem _ _ _ hl)

/-- C10: for every resource whose `Type()` is not a key of the backend's
collection, `BackendResources.Add` is a no-op: the state is returned
unchanged and nothing is posted to any subscriber channel. -/
theorem backendAdd_unknown_type_noop (st : BackendState) (r : Resource) (now : Int)
    (habs : st.coll.lookup r.rtype = none) :
    backendAdd st r now = (st, []) := by
  unfold backendAdd
  rw [habs]

/-- Witness for C10 at a concrete input: a collection that only knows type
`"obfs4"` and a resource of type `"vanilla"`. -/
theorem backendAdd_unknown_type_noop_witness :
    backendAdd ⟨[("obfs4", ⟨[], none⟩)], []⟩ ⟨"vanilla", 1, 1, "", 0⟩ 0 =
      (⟨[("obfs4", ⟨[], none⟩)], []⟩, []) :=
  backendAdd_unknown_type_noop ⟨[("obfs4", ⟨[], none⟩)], []⟩ ⟨"vanilla", 1, 1, "", 0⟩ 0
    (by decide)

end Rdsys
